import Mathlib

/-!
Shallow embedding of the expense-tracker core (src/script.js and
src/unnamed/part_000).  The two source variants share the CRUD, query and
aggregation logic verbatim; they differ only in the CSV export (the
part_000 "Final Fixed Version" wraps the description in double quotes,
script.js does not), so both CSV variants are embedded.

Modelling conventions:
* JavaScript numbers are modelled exactly by `JsNum`: NaN, signed
  infinity, or an exact rational.  Rational arithmetic is exact, so IEEE
  rounding is not modelled; every operation's NaN/infinity behaviour is.
* The result of `parseFloat` on a form field is taken as an input of type
  `JsNum` (NaN when the field does not parse).
* `new Date(s)` on the date strings handled by the app (the `YYYY-MM-DD`
  values produced by a date input) is modelled by `parseDateYMD`; any
  other string is treated as an invalid date, and the numeric value of a
  valid date is encoded by a strictly monotone injection of its
  (year, month, day) so that date comparisons are faithful.  The runtime
  timezone is taken to be UTC, so the local year/month of a parsed
  `YYYY-MM-DD` equal the string's own year/month.
* JavaScript objects used as string-keyed dictionaries
  (`categoryTotals`) are modelled as insertion-ordered association
  lists; `Object.entries` enumerates in insertion order for keys that
  are not array-index strings.
* `Array.prototype.sort` (stable since ES2019) is modelled by a stable
  insertion sort driven by the comparator.
* Wall-clock inputs (`Date.now`, `new Date()`, the generated id) are
  passed in as explicit parameters.
-/

namespace ExpenseTracker

/-- A JavaScript number: NaN, a signed infinity, or a finite value
(modelled as an exact rational). -/
inductive JsNum where
  | nan : JsNum
  | inf (pos : Bool) : JsNum
  | num (q : ℚ) : JsNum
deriving DecidableEq

namespace JsNum

/-- `isNaN x` of JavaScript. -/
def isNaNb : JsNum → Bool
  | nan => true
  | _ => false

/-- Whether the value is finite (neither NaN nor an infinity). -/
def isFinite : JsNum → Bool
  | num _ => true
  | _ => false

/-- JavaScript `<` (false whenever either side is NaN). -/
def lt : JsNum → JsNum → Bool
  | nan, _ => false
  | _, nan => false
  | inf true, _ => false
  | inf false, inf false => false
  | inf false, _ => true
  | num _, inf true => true
  | num _, inf false => false
  | num a, num b => decide (a < b)

/-- JavaScript `<=` (false whenever either side is NaN). -/
def le : JsNum → JsNum → Bool
  | nan, _ => false
  | _, nan => false
  | inf true, inf true => true
  | inf true, _ => false
  | inf false, _ => true
  | num _, inf true => true
  | num _, inf false => false
  | num a, num b => decide (a ≤ b)

/-- JavaScript `+` on numbers (exact on finite values). -/
def add : JsNum → JsNum → JsNum
  | nan, _ => nan
  | _, nan => nan
  | inf p, inf q => if p = q then inf p else nan
  | inf p, num _ => inf p
  | num _, inf p => inf p
  | num a, num b => num (a + b)

/-- JavaScript unary minus. -/
def neg : JsNum → JsNum
  | nan => nan
  | inf p => inf (!p)
  | num a => num (-a)

/-- JavaScript `-` on numbers. -/
def sub (a b : JsNum) : JsNum := add a (neg b)

/-- JavaScript `*` on numbers (exact on finite values). -/
def mul : JsNum → JsNum → JsNum
  | nan, _ => nan
  | _, nan => nan
  | inf p, inf q => inf (p == q)
  | inf p, num b => if b = 0 then nan else inf (p == decide (0 < b))
  | num a, inf p => if a = 0 then nan else inf (p == decide (0 < a))
  | num a, num b => num (a * b)

/-- JavaScript `/` on numbers (exact on finite values; division by zero
gives a signed infinity, `0/0` gives NaN). -/
def div : JsNum → JsNum → JsNum
  | nan, _ => nan
  | _, nan => nan
  | inf _, inf _ => nan
  | inf p, num b => if b < 0 then inf (!p) else inf p
  | num _, inf _ => num 0
  | num a, num b =>
    if b = 0 then (if a = 0 then nan else inf (decide (0 < a)))
    else num (a / b)

/-- `Math.max` with two arguments (NaN-propagating). -/
def max2 (a b : JsNum) : JsNum :=
  if a.isNaNb || b.isNaNb then nan
  else if lt a b then b else a

/-- JavaScript truthiness of a number: `0` and NaN are falsy. -/
def isFalsy : JsNum → Bool
  | nan => true
  | inf _ => false
  | num q => q == 0

end JsNum

/-- `String.prototype.trim`: drop whitespace from both ends (char-list
implementation so that concrete strings evaluate). -/
def jsTrim (s : String) : String :=
  String.mk
    (((s.toList.dropWhile Char.isWhitespace).reverse.dropWhile
        Char.isWhitespace).reverse)

/-- `String.prototype.toLowerCase` (ASCII case-folding, which covers the
app's inputs; char-list implementation so that concrete strings
evaluate). -/
def jsToLower (s : String) : String :=
  String.mk (s.toList.map Char.toLower)

/-- Left-pad a numeral below 100 to two digits, as
`String(n).padStart(2, "0")` does for the month component. -/
def pad2 (n : ℕ) : String :=
  if n < 10 then "0" ++ toString n else toString n

/-- `Number.prototype.toFixed(2)`: the integer `n` for which `n / 100` is
closest to the value, ties toward the larger `n` (ES semantics on the
exact value; binary-double rounding is not modelled). -/
def JsNum.toFixed2 : JsNum → String
  | JsNum.nan => "NaN"
  | JsNum.inf true => "Infinity"
  | JsNum.inf false => "-Infinity"
  | JsNum.num q =>
    let n : ℤ := ⌊q * 100 + 1 / 2⌋
    let sign := if n < 0 then "-" else ""
    let a := n.natAbs
    sign ++ toString (a / 100) ++ "." ++ pad2 (a % 100)

/-- Number of days in a month (Gregorian), as validated by the ISO date
parsing of `new Date("YYYY-MM-DD")`. -/
def daysInMonth (y m : ℕ) : ℕ :=
  if m = 2 then
    (if y % 4 = 0 ∧ (y % 100 ≠ 0 ∨ y % 400 = 0) then 29 else 28)
  else if m = 4 ∨ m = 6 ∨ m = 9 ∨ m = 11 then 30
  else 31

/-- Numeric value of a digit character. -/
def digitVal (c : Char) : ℕ := c.toNat - 48

/-- Modelled subset of the `new Date(string)` builtin: the `YYYY-MM-DD`
values produced by the app's date input parse to (year, month, day);
every other string is treated as an invalid date (`NaN` time value). -/
def parseDateYMD (s : String) : Option (ℕ × ℕ × ℕ) :=
  match s.toList with
  | [y1, y2, y3, y4, h1, m1, m2, h2, d1, d2] =>
    if y1.isDigit ∧ y2.isDigit ∧ y3.isDigit ∧ y4.isDigit ∧
       h1 = '-' ∧ m1.isDigit ∧ m2.isDigit ∧ h2 = '-' ∧
       d1.isDigit ∧ d2.isDigit then
      let y := 1000 * digitVal y1 + 100 * digitVal y2 + 10 * digitVal y3 + digitVal y4
      let m := 10 * digitVal m1 + digitVal m2
      let d := 10 * digitVal d1 + digitVal d2
      if 1 ≤ m ∧ m ≤ 12 ∧ 1 ≤ d ∧ d ≤ daysInMonth y m then some (y, m, d)
      else none
    else none
  | _ => none

/-- `getYearMonthKey`: `""` for an invalid date, else
`` `${year}-${month padded to 2}` `` (source: script.js lines 69-75,
part_000 lines 38-44). -/
def getYearMonthKey (dateInput : String) : String :=
  match parseDateYMD dateInput with
  | none => ""
  | some (y, m, _) => toString y ++ "-" ++ pad2 m

/-- The numeric time value of `new Date(s)` used by the date sort
comparators: NaN for an invalid date, else a strictly monotone injective
encoding of (year, month, day) (months < 16, days < 32, so the encoding
is lexicographic and hence orders exactly like the real timestamps of
`YYYY-MM-DD` dates). -/
def jsDateVal (s : String) : JsNum :=
  match parseDateYMD s with
  | none => JsNum.nan
  | some (y, m, d) => JsNum.num ((y * 512 + m * 32 + d : ℕ) : ℚ)

/-- One expense record (data model of both source variants). -/
structure Expense where
  id : String
  amount : JsNum
  category : String
  date : String
  description : String
  createdAt : String
deriving DecidableEq

/-- The state of the submitted form: `editingId` is empty for a create,
`amount` is the result of `parseFloat(elements.amount.value)` (NaN when
the field does not parse). -/
structure ExpenseForm where
  editingId : String
  amount : JsNum
  category : String
  date : String
  description : String
deriving DecidableEq

/-- `createExpenseFromForm` (script.js lines 220-244, part_000 lines
180-204): rejects a NaN or non-positive amount, then rejects an empty
trimmed category, an empty date value, or an empty trimmed description;
otherwise builds the record with the freshly generated id and the current
ISO timestamp (both passed in as parameters here). -/
def createExpenseFromForm (form : ExpenseForm) (freshId nowIso : String) :
    Option Expense :=
  let amountValue := form.amount
  if amountValue.isNaNb || JsNum.le amountValue (JsNum.num 0) then none
  else
    let categoryValue := jsTrim form.category
    let dateValue := form.date
    let descriptionValue := jsTrim form.description
    if categoryValue = "" ∨ dateValue = "" ∨ descriptionValue = "" then none
    else some
      { id := freshId
        amount := amountValue
        category := categoryValue
        date := dateValue
        description := descriptionValue
        createdAt := nowIso }

/-- `handleFormSubmit` (script.js lines 254-289, part_000 lines 206-238),
restricted to its effect on the in-memory `expenses` collection: with a
non-empty `editingId` it updates the first record with that id in place
(only when the re-parsed amount is valid), otherwise it appends the
record built by `createExpenseFromForm` when validation succeeds; in
every other case the collection is returned unchanged. -/
def handleFormSubmit (expenses : List Expense) (form : ExpenseForm)
    (freshId nowIso : String) : List Expense :=
  if form.editingId ≠ "" then
    match expenses.findIdx? (fun e => e.id == form.editingId) with
    | none => expenses
    | some index =>
      let updatedAmount := form.amount
      if updatedAmount.isNaNb || JsNum.le updatedAmount (JsNum.num 0) then
        expenses
      else
        match expenses[index]? with
        | none => expenses
        | some old =>
          expenses.set index
            { old with
              amount := updatedAmount
              category := jsTrim form.category
              date := form.date
              description := jsTrim form.description }
  else
    match createExpenseFromForm form freshId nowIso with
    | none => expenses
    | some newExpense => expenses ++ [newExpense]

/-- `deleteExpense` (script.js lines 318-322): keep every record whose id
differs. -/
def deleteExpense (expenses : List Expense) (i : String) : List Expense :=
  expenses.filter (fun e => e.id ≠ i)

/-- `clearAllExpenses` (script.js lines 328-332). -/
def clearAllExpenses (_expenses : List Expense) : List Expense := []

/-- Whether `needle` is a prefix of `hay` (character lists). -/
def listStartsWith : List Char → List Char → Bool
  | [], _ => true
  | _ :: _, [] => false
  | a :: as, b :: bs => a == b && listStartsWith as bs

/-- Whether `needle` occurs as a contiguous run inside `hay`
(`String.prototype.includes`). -/
def listHasRun (needle : List Char) : List Char → Bool
  | [] => listStartsWith needle []
  | c :: t => listStartsWith needle (c :: t) || listHasRun needle t

/-- `hay.includes(needle)` on strings. -/
def strIncludes (hay needle : String) : Bool :=
  listHasRun needle.toList hay.toList

/-- The filter/sort selection read from the controls at the top of
`getProcessedExpenses`. -/
structure QuerySpec where
  searchText : String
  filterMonth : String
  filterCategory : String
  sortBy : String
deriving DecidableEq

/-- The comparator passed to `list.sort` in `getProcessedExpenses`
(script.js lines 382-396, part_000 lines 295-301). -/
def sortComparator (sortBy : String) (a b : Expense) : JsNum :=
  if sortBy = "dateDesc" then JsNum.sub (jsDateVal b.date) (jsDateVal a.date)
  else if sortBy = "dateAsc" then JsNum.sub (jsDateVal a.date) (jsDateVal b.date)
  else if sortBy = "amountDesc" then JsNum.sub b.amount a.amount
  else if sortBy = "amountAsc" then JsNum.sub a.amount b.amount
  else JsNum.num 0

/-- "`a` may stay before `b`" for a sort comparator: the comparator does
not return a value strictly greater than 0. -/
def cmpKeeps (cmp : Expense → Expense → JsNum) (a b : Expense) : Bool :=
  !(JsNum.lt (JsNum.num 0) (cmp a b))

/-- Insert `x` into `l` before the first element `y` with `le x y`
(keeping `x` after every earlier element it does not have to precede). -/
def stableInsert (le : α → α → Bool) (x : α) : List α → List α
  | [] => [x]
  | y :: ys => if le x y then x :: y :: ys else y :: stableInsert le x ys

/-- Stable insertion sort; models the ES2019+ stable
`Array.prototype.sort` for consistent comparators. -/
def stableSort (le : α → α → Bool) : List α → List α
  | [] => []
  | x :: xs => stableInsert le x (stableSort le xs)

/-- `getProcessedExpenses` (script.js lines 350-399, part_000 lines
267-304) as a function of the collection and the control values: search
filter (trimmed, lower-cased, matched inside description or category),
month filter (`getYearMonthKey` equality), category filter (exact), then
the comparator sort. -/
def getProcessedExpenses (expenses : List Expense) (spec : QuerySpec) :
    List Expense :=
  let searchQuery := jsToLower (jsTrim spec.searchText)
  let list := expenses
  let list :=
    if searchQuery ≠ "" then
      list.filter (fun expense =>
        strIncludes (jsToLower expense.description) searchQuery ||
        strIncludes (jsToLower expense.category) searchQuery)
    else list
  let list :=
    if spec.filterMonth ≠ "" then
      list.filter (fun expense => getYearMonthKey expense.date == spec.filterMonth)
    else list
  let list :=
    if spec.filterCategory ≠ "" then
      list.filter (fun expense => expense.category == spec.filterCategory)
    else list
  stableSort (cmpKeeps (sortComparator spec.sortBy)) list

/-- Lookup in the insertion-ordered association list modelling the
`categoryTotals` object. -/
def bucketLookup (m : List (String × JsNum)) (k : String) : Option JsNum :=
  (m.find? (fun p => p.1 == k)).map Prod.snd

/-- One step of `categoryTotals[cat] += amount` with the preceding
`if (!categoryTotals[cat]) categoryTotals[cat] = 0;` guard: an absent key
is appended, and a falsy stored total (0 or NaN) is reset to 0 before the
addition. -/
def bucketAdd (m : List (String × JsNum)) (k : String) (a : JsNum) :
    List (String × JsNum) :=
  match bucketLookup m k with
  | none => m ++ [(k, JsNum.add (JsNum.num 0) a)]
  | some v =>
    let v0 := if v.isFalsy then JsNum.num 0 else v
    m.map (fun p => if p.1 == k then (p.1, JsNum.add v0 a) else p)

/-- The data computed by `renderSummary` (script.js lines 481-528,
part_000 lines 453-495) before it is written into the DOM. -/
structure Summary where
  thisMonthTotal : JsNum
  allTimeTotal : JsNum
  transactionCount : ℕ
  categoryTotals : List (String × JsNum)
  topCategoryName : String
  topCategoryAmount : JsNum
deriving DecidableEq

/-- The accumulation step of `renderSummary`'s single pass over
`expenses`. -/
def summaryStep (currentMonthKey : String)
    (acc : JsNum × JsNum × List (String × JsNum)) (e : Expense) :
    JsNum × JsNum × List (String × JsNum) :=
  (JsNum.add acc.1 e.amount,
   if getYearMonthKey e.date == currentMonthKey then JsNum.add acc.2.1 e.amount
   else acc.2.1,
   bucketAdd acc.2.2 e.category e.amount)

/-- The top-category scan over `Object.entries(categoryTotals)`:
`if (total > topCategoryAmount) { ... }` starting from the en-dash
sentinel and 0. -/
def topScan (cats : List (String × JsNum)) : String × JsNum :=
  cats.foldl
    (fun best p => if JsNum.lt best.2 p.2 then p else best)
    ("–", JsNum.num 0)

/-- `renderSummary` (script.js lines 481-528, part_000 lines 453-495):
the single pass accumulating the all-time total, the current-month total
and the per-category totals, followed by the top-category scan.  The
current wall-clock month key is a parameter. -/
def renderSummary (expenses : List Expense) (currentMonthKey : String) :
    Summary :=
  let acc := expenses.foldl (summaryStep currentMonthKey)
    (JsNum.num 0, JsNum.num 0, [])
  let top := topScan acc.2.2
  { thisMonthTotal := acc.2.1
    allTimeTotal := acc.1
    transactionCount := expenses.length
    categoryTotals := acc.2.2
    topCategoryName := top.1
    topCategoryAmount := top.2 }

/-- The tuple returned by `getBudgetProgress`. -/
structure BudgetProgress where
  budget : JsNum
  spent : JsNum
  remaining : JsNum
  percentage : JsNum
deriving DecidableEq

/-- `getBudgetProgress` (part_000 lines 65-81): `spent` sums the amounts
of the records whose month key equals the current wall-clock month key
(a parameter here); `remaining = Math.max(0, budget - spent)`;
`percentage = budget > 0 ? (spent / budget) * 100 : 0`. -/
def getBudgetProgress (expenses : List Expense) (currentMonthKey : String)
    (budget : JsNum) : BudgetProgress :=
  let spent := expenses.foldl
    (fun s e =>
      if getYearMonthKey e.date == currentMonthKey then JsNum.add s e.amount
      else s)
    (JsNum.num 0)
  let remaining := JsNum.max2 (JsNum.num 0) (JsNum.sub budget spent)
  let percentage :=
    if JsNum.lt (JsNum.num 0) budget then
      JsNum.mul (JsNum.div spent budget) (JsNum.num 100)
    else JsNum.num 0
  { budget := budget, spent := spent, remaining := remaining,
    percentage := percentage }

/-- `description.replace(/"/g, '""')` of the CSV export. -/
def csvEscapeQuotes (s : String) : String :=
  String.mk (s.toList.flatMap (fun c => if c = '"' then ['"', '"'] else [c]))

/-- The CSV text built by `exportExpensesToCsv` in script.js (lines
661-689): header row, then one row per record in store order; the
description has its double quotes doubled but is NOT wrapped in quotes. -/
def exportExpensesToCsvContent (expenses : List Expense) : String :=
  let headers := ["ID", "Date", "Category", "Description", "Amount"]
  let rows := expenses.map (fun e =>
    [e.id, e.date, e.category, csvEscapeQuotes e.description,
     e.amount.toFixed2])
  let csvLines :=
    [String.intercalate "," headers] ++
      rows.map (fun r => String.intercalate "," r)
  String.intercalate "\n" csvLines

/-- The CSV text built by `exportExpensesToCsv` in part_000 (lines
661-689, the "Final Fixed Version"): as in script.js but the description
cell is wrapped in double quotes
(`` `"${e.description.replace(/"/g, '""')}"` ``). -/
def exportExpensesToCsvContentFixed (expenses : List Expense) : String :=
  let headers := ["ID", "Date", "Category", "Description", "Amount"]
  let rows := expenses.map (fun e =>
    [e.id, e.date, e.category,
     "\"" ++ csvEscapeQuotes e.description ++ "\"",
     e.amount.toFixed2])
  let csvLines :=
    [String.intercalate "," headers] ++
      rows.map (fun r => String.intercalate "," r)
  String.intercalate "\n" csvLines

/-- The finite value of a `JsNum` (0 on NaN and infinities); used only to
state properties of collections all of whose amounts are finite. -/
def JsNum.toQ : JsNum → ℚ
  | JsNum.num q => q
  | _ => 0

/-- Exact sum of the amounts of a list of records (specification side,
meaningful when all amounts are finite). -/
def qSum (l : List Expense) : ℚ :=
  (l.map (fun e => e.amount.toQ)).sum

/-- The categories of a record list in first-seen order (the insertion
order of the keys of the `categoryTotals` object). -/
def seenKeys (l : List Expense) : List String :=
  l.foldl (fun ks e => if e.category ∈ ks then ks else ks ++ [e.category]) []

/-- The `categoryTotals` object built by the summary pass over a record
list (the bucket component of the fold in `renderSummary`). -/
def bucketsOf (l : List Expense) : List (String × JsNum) :=
  l.foldl (fun m e => bucketAdd m e.category e.amount) []

/-- Whether a string is a canonical array-index key, the one class of
object keys that JavaScript enumerates numerically rather than in
insertion order. -/
def isArrayIndexStr (s : String) : Bool :=
  if s.toList ≠ [] ∧ s.toList.all Char.isDigit then
    (toString (s.toList.foldl (fun n c => 10 * n + digitVal c) 0) == s) &&
      ((s.toList.foldl (fun n c => 10 * n + digitVal c) 0) < 4294967295)
  else false

/-- The combined rejection condition of `createExpenseFromForm`: NaN or
non-positive parsed amount, or an empty trimmed category, an empty date
value (not trimmed by the source), or an empty trimmed description. -/
def createRejects (form : ExpenseForm) : Bool :=
  form.amount.isNaNb || JsNum.le form.amount (JsNum.num 0) ||
    (jsTrim form.category == "") || (form.date == "") ||
    (jsTrim form.description == "")

/-- The first three stages (search, month, category filters) of
`getProcessedExpenses`, before the sort. -/
def filterStages (expenses : List Expense) (spec : QuerySpec) :
    List Expense :=
  let searchQuery := jsToLower (jsTrim spec.searchText)
  let list := expenses
  let list :=
    if searchQuery ≠ "" then
      list.filter (fun expense =>
        strIncludes (jsToLower expense.description) searchQuery ||
        strIncludes (jsToLower expense.category) searchQuery)
    else list
  let list :=
    if spec.filterMonth ≠ "" then
      list.filter (fun expense => getYearMonthKey expense.date == spec.filterMonth)
    else list
  let list :=
    if spec.filterCategory ≠ "" then
      list.filter (fun expense => expense.category == spec.filterCategory)
    else list
  list

/-! ## Basic lemmas about the query pipeline and the sort -/

theorem getProcessedExpenses_decomp (expenses : List Expense)
    (spec : QuerySpec) :
    getProcessedExpenses expenses spec =
      stableSort (cmpKeeps (sortComparator spec.sortBy))
        (filterStages expenses spec) := rfl

theorem mem_stableInsert (le : α → α → Bool) (x a : α) (m : List α) :
    a ∈ stableInsert le x m ↔ a = x ∨ a ∈ m := by
  induction m with
  | nil => simp [stableInsert]
  | cons y ys ih =>
    by_cases h : le x y = true
    · simp [stableInsert, h]
    · simp only [stableInsert, if_neg h, List.mem_cons, ih]
      tauto

theorem mem_stableSort (le : α → α → Bool) (a : α) (l : List α) :
    a ∈ stableSort le l ↔ a ∈ l := by
  induction l with
  | nil => simp [stableSort]
  | cons x xs ih =>
    simp [stableSort, mem_stableInsert, ih]

theorem stableInsert_of_true (le : α → α → Bool)
    (h : ∀ a b, le a b = true) (x : α) (m : List α) :
    stableInsert le x m = x :: m := by
  cases m <;> simp [stableInsert, h]

theorem stableSort_of_true (le : α → α → Bool)
    (h : ∀ a b, le a b = true) (l : List α) :
    stableSort le l = l := by
  induction l with
  | nil => rfl
  | cons x xs ih => simp [stableSort, ih, stableInsert_of_true le h]

theorem mem_of_mem_ite_filter (e : Expense) (p : Expense → Bool)
    (l : List Expense) (c : Prop) [Decidable c]
    (h : e ∈ (if c then l.filter p else l)) : e ∈ l := by
  split at h
  · exact (List.mem_filter.mp h).1
  · exact h

theorem mem_filterStages (e : Expense) (expenses : List Expense)
    (spec : QuerySpec) (he : e ∈ filterStages expenses spec) :
    e ∈ expenses := by
  simp only [filterStages] at he
  exact mem_of_mem_ite_filter e _ _ _
    (mem_of_mem_ite_filter e _ _ _ (mem_of_mem_ite_filter e _ _ _ he))

theorem mem_filterStages_month (e : Expense) (expenses : List Expense)
    (spec : QuerySpec) (hm : spec.filterMonth ≠ "")
    (he : e ∈ filterStages expenses spec) :
    (getYearMonthKey e.date == spec.filterMonth) = true := by
  simp only [filterStages] at he
  replace he := mem_of_mem_ite_filter e _ _ _ he
  rw [if_pos hm] at he
  exact (List.mem_filter.mp he).2

/-! ## C10: records with unparseable dates never match a month filter -/

/-- C10: a record whose date field is unparseable has the empty string as
its derived month key, so as soon as a non-empty month filter is set the
record is excluded from the query result. -/
theorem invalid_date_excluded_c10 (e : Expense) (expenses : List Expense)
    (spec : QuerySpec) (hd : parseDateYMD e.date = none)
    (hm : spec.filterMonth ≠ "") :
    getYearMonthKey e.date = "" ∧ e ∉ getProcessedExpenses expenses spec := by
  have hk : getYearMonthKey e.date = "" := by
    unfold getYearMonthKey
    rw [hd]
  refine ⟨hk, fun hmem => ?_⟩
  rw [getProcessedExpenses_decomp, mem_stableSort] at hmem
  have h2 := mem_filterStages_month e expenses spec hm hmem
  rw [hk] at h2
  exact hm (beq_iff_eq.mp h2).symm

theorem invalid_date_excluded_c10_witness :
    parseDateYMD "not a date" = none ∧ ("2024-01" : String) ≠ "" ∧
    getYearMonthKey "not a date" = "" ∧
    ({ id := "a", amount := JsNum.num 5, category := "Food",
       date := "not a date", description := "x", createdAt := "t" } : Expense) ∉
      getProcessedExpenses
        [{ id := "a", amount := JsNum.num 5, category := "Food",
           date := "not a date", description := "x", createdAt := "t" }]
        { searchText := "", filterMonth := "2024-01", filterCategory := "",
          sortBy := "" } := by
  refine ⟨by decide, by decide, ?_, ?_⟩
  · exact (invalid_date_excluded_c10
      { id := "a", amount := JsNum.num 5, category := "Food",
        date := "not a date", description := "x", createdAt := "t" }
      [{ id := "a", amount := JsNum.num 5, category := "Food",
         date := "not a date", description := "x", createdAt := "t" }]
      { searchText := "", filterMonth := "2024-01", filterCategory := "",
        sortBy := "" } (by decide) (by decide)).1
  · exact (invalid_date_excluded_c10
      { id := "a", amount := JsNum.num 5, category := "Food",
        date := "not a date", description := "x", createdAt := "t" }
      [{ id := "a", amount := JsNum.num 5, category := "Food",
         date := "not a date", description := "x", createdAt := "t" }]
      { searchText := "", filterMonth := "2024-01", filterCategory := "",
        sortBy := "" } (by decide) (by decide)).2

/-! ## C7: the query pipeline is the identity on an all-empty spec -/

/-- C7: with empty search text, no month filter, no category filter, and
a sort key that is none of the four recognized ones, the pipeline
returns the input collection in its original order. -/
theorem identity_query_c7 (expenses : List Expense) (spec : QuerySpec)
    (hs : spec.searchText = "") (hm : spec.filterMonth = "")
    (hc : spec.filterCategory = "")
    (hk : spec.sortBy ∉
      (["dateDesc", "dateAsc", "amountDesc", "amountAsc"] : List String)) :
    getProcessedExpenses expenses spec = expenses := by
  have hk1 : spec.sortBy ≠ "dateDesc" := fun h => hk (by simp [h])
  have hk2 : spec.sortBy ≠ "dateAsc" := fun h => hk (by simp [h])
  have hk3 : spec.sortBy ≠ "amountDesc" := fun h => hk (by simp [h])
  have hk4 : spec.sortBy ≠ "amountAsc" := fun h => hk (by simp [h])
  have hq : jsToLower (jsTrim "") = "" := by decide
  have hcmp : ∀ a b, cmpKeeps (sortComparator spec.sortBy) a b = true := by
    intro a b
    unfold cmpKeeps sortComparator
    rw [if_neg hk1, if_neg hk2, if_neg hk3, if_neg hk4]
    decide
  simp only [getProcessedExpenses, hs, hm, hc, hq]
  simp only [ne_eq, not_true_eq_false, if_false]
  exact stableSort_of_true _ hcmp expenses

theorem identity_query_c7_witness :
    getProcessedExpenses
      [{ id := "a", amount := JsNum.num 5, category := "Food",
         date := "2024-01-05", description := "x", createdAt := "t" },
       { id := "b", amount := JsNum.num 3, category := "Gas",
         date := "2024-02-06", description := "y", createdAt := "t" }]
      { searchText := "", filterMonth := "", filterCategory := "",
        sortBy := "" } =
      [{ id := "a", amount := JsNum.num 5, category := "Food",
         date := "2024-01-05", description := "x", createdAt := "t" },
       { id := "b", amount := JsNum.num 3, category := "Gas",
         date := "2024-02-06", description := "y", createdAt := "t" }] :=
  identity_query_c7 _ _ rfl rfl rfl (by decide)

/-! ## C2: create and update reject a bad amount atomically -/

/-- C2: any create or update submission whose parsed amount is NaN
(non-numeric) or not strictly positive leaves the collection exactly as
it was: same list, hence same length, records, and order. -/
theorem reject_bad_amount_c2 (expenses : List Expense) (form : ExpenseForm)
    (freshId nowIso : String)
    (h : (form.amount.isNaNb || JsNum.le form.amount (JsNum.num 0)) = true) :
    handleFormSubmit expenses form freshId nowIso = expenses := by
  unfold handleFormSubmit
  by_cases he : form.editingId ≠ ""
  · rw [if_pos he]
    cases hfi : expenses.findIdx? (fun e => e.id == form.editingId) with
    | none => rfl
    | some index =>
      simp only [h]
      rfl
  · rw [if_neg he]
    unfold createExpenseFromForm
    simp only [h]
    rfl

theorem reject_bad_amount_c2_witness :
    handleFormSubmit
      [{ id := "a", amount := JsNum.num 5, category := "Food",
         date := "2024-01-05", description := "x", createdAt := "t" }]
      { editingId := "", amount := JsNum.num (-3), category := "Food",
        date := "2024-01-05", description := "y" } "fresh" "now" =
      [{ id := "a", amount := JsNum.num 5, category := "Food",
         date := "2024-01-05", description := "x", createdAt := "t" }] ∧
    handleFormSubmit
      [{ id := "a", amount := JsNum.num 5, category := "Food",
         date := "2024-01-05", description := "x", createdAt := "t" }]
      { editingId := "a", amount := JsNum.nan, category := "Food",
        date := "2024-01-05", description := "y" } "fresh" "now" =
      [{ id := "a", amount := JsNum.num 5, category := "Food",
         date := "2024-01-05", description := "x", createdAt := "t" }] :=
  ⟨reject_bad_amount_c2 _ _ _ _ (by decide),
   reject_bad_amount_c2 _ _ _ _ (by decide)⟩

/-! ## C6: budget progress -/

theorem foldl_month_filter (l : List Expense) (k : String) (s : JsNum) :
    l.foldl
      (fun s e =>
        if getYearMonthKey e.date == k then JsNum.add s e.amount else s) s =
      (l.filter (fun e => getYearMonthKey e.date == k)).foldl
        (fun s e => JsNum.add s e.amount) s := by
  induction l generalizing s with
  | nil => rfl
  | cons e t ih =>
    by_cases h : (getYearMonthKey e.date == k) = true
    · rw [List.foldl_cons, List.filter_cons, if_pos h, if_pos h,
        List.foldl_cons]
      exact ih _
    · rw [List.foldl_cons, List.filter_cons, if_neg h, if_neg h]
      exact ih _

theorem max2_zero_nonneg (x : JsNum) :
    JsNum.lt (JsNum.max2 (JsNum.num 0) x) (JsNum.num 0) = false := by
  cases x with
  | nan => rfl
  | inf p => cases p <;> rfl
  | num q =>
    by_cases hq : (0 : ℚ) < q
    · have h1 : JsNum.max2 (JsNum.num 0) (JsNum.num q) = JsNum.num q := by
        simp [JsNum.max2, JsNum.isNaNb, JsNum.lt, hq]
      rw [h1]
      simp only [JsNum.lt, decide_eq_false_iff_not, not_lt]
      linarith
    · have h1 : JsNum.max2 (JsNum.num 0) (JsNum.num q) = JsNum.num 0 := by
        simp [JsNum.max2, JsNum.isNaNb, JsNum.lt, hq]
      rw [h1]
      simp only [JsNum.lt, decide_eq_false_iff_not, not_lt]
      exact le_refl 0

/-- C6: budget progress satisfies
`remaining = max(0, budget - spent)` (hence is never negative, even when
spent exceeds the budget), `percentage = (spent / budget) * 100` when
`budget > 0` and exactly 0 when `budget = 0` regardless of `spent`, and
`spent` is the left-to-right sum of the amounts of the records whose
month key equals the current wall-clock month key. -/
theorem budget_progress_c6 (expenses : List Expense)
    (currentMonthKey : String) (budget : JsNum) :
    (getBudgetProgress expenses currentMonthKey budget).remaining =
      JsNum.max2 (JsNum.num 0)
        (JsNum.sub budget
          (getBudgetProgress expenses currentMonthKey budget).spent) ∧
    JsNum.lt (getBudgetProgress expenses currentMonthKey budget).remaining
      (JsNum.num 0) = false ∧
    (budget = JsNum.num 0 →
      (getBudgetProgress expenses currentMonthKey budget).percentage =
        JsNum.num 0) ∧
    (JsNum.lt (JsNum.num 0) budget = true →
      (getBudgetProgress expenses currentMonthKey budget).percentage =
        JsNum.mul
          (JsNum.div (getBudgetProgress expenses currentMonthKey budget).spent
            budget)
          (JsNum.num 100)) ∧
    (getBudgetProgress expenses currentMonthKey budget).spent =
      (expenses.filter
          (fun e => getYearMonthKey e.date == currentMonthKey)).foldl
        (fun s e => JsNum.add s e.amount) (JsNum.num 0) := by
  refine ⟨rfl, max2_zero_nonneg _, ?_, ?_, ?_⟩
  · intro hb
    subst hb
    simp [getBudgetProgress, JsNum.lt]
  · intro hb
    simp [getBudgetProgress, hb]
  · exact foldl_month_filter expenses currentMonthKey (JsNum.num 0)

theorem budget_progress_c6_witness :
    (getBudgetProgress [] "2024-01" (JsNum.num 0)).percentage = JsNum.num 0 ∧
    (getBudgetProgress [] "2024-01" (JsNum.num 500)).percentage =
      JsNum.mul
        (JsNum.div (getBudgetProgress [] "2024-01" (JsNum.num 500)).spent
          (JsNum.num 500))
        (JsNum.num 100) :=
  ⟨(budget_progress_c6 [] "2024-01" (JsNum.num 0)).2.2.1 rfl,
   (budget_progress_c6 [] "2024-01" (JsNum.num 500)).2.2.2.1 (by decide)⟩

/-! ## C9: a successful update edits exactly the addressed record -/

/-- C9: when an update submission addresses an existing record (the first
one whose id matches) and the re-parsed amount is valid, the record keeps
its `id` and `createdAt`, takes the submitted amount/category/date/
description (category and description trimmed), stays at its original
position, and every other position of the collection is untouched (the
length is unchanged). -/
theorem update_frame_c9 (expenses : List Expense) (form : ExpenseForm)
    (freshId nowIso : String) (i : ℕ) (old : Expense)
    (h1 : form.editingId ≠ "")
    (h2 : expenses.findIdx? (fun e => e.id == form.editingId) = some i)
    (h3 : (form.amount.isNaNb || JsNum.le form.amount (JsNum.num 0)) = false)
    (h4 : expenses[i]? = some old) :
    (handleFormSubmit expenses form freshId nowIso).length =
      expenses.length ∧
    (handleFormSubmit expenses form freshId nowIso)[i]? = some
      { id := old.id, amount := form.amount,
        category := jsTrim form.category, date := form.date,
        description := jsTrim form.description,
        createdAt := old.createdAt } ∧
    ∀ j, j ≠ i →
      (handleFormSubmit expenses form freshId nowIso)[j]? = expenses[j]? := by
  have hres : handleFormSubmit expenses form freshId nowIso =
      expenses.set i
        { old with
          amount := form.amount
          category := jsTrim form.category
          date := form.date
          description := jsTrim form.description } := by
    unfold handleFormSubmit
    rw [if_pos h1, h2]
    simp only [h3, Bool.false_eq_true, if_false, h4]
  have hi : i < expenses.length := by
    by_contra hlen
    rw [List.getElem?_eq_none (Nat.le_of_not_lt hlen)] at h4
    exact Option.noConfusion h4
  refine ⟨?_, ?_, ?_⟩
  · rw [hres, List.length_set]
  · rw [hres, List.getElem?_set_eq_of_lt _ hi]
  · intro j hj
    rw [hres, List.getElem?_set_ne hj.symm]

theorem update_frame_c9_witness :
    (handleFormSubmit
        [{ id := "a", amount := JsNum.num 5, category := "Food",
           date := "2024-01-05", description := "x", createdAt := "t0" },
         { id := "b", amount := JsNum.num 3, category := "Gas",
           date := "2024-02-06", description := "y", createdAt := "t1" }]
        { editingId := "b", amount := JsNum.num 7, category := " Travel ",
          date := "2024-03-07", description := "z" } "fresh" "now")[1]? =
      some
        { id := "b", amount := JsNum.num 7, category := "Travel",
          date := "2024-03-07", description := "z", createdAt := "t1" } :=
  (update_frame_c9
    [{ id := "a", amount := JsNum.num 5, category := "Food",
       date := "2024-01-05", description := "x", createdAt := "t0" },
     { id := "b", amount := JsNum.num 3, category := "Gas",
       date := "2024-02-06", description := "y", createdAt := "t1" }]
    { editingId := "b", amount := JsNum.num 7, category := " Travel ",
      date := "2024-03-07", description := "z" } "fresh" "now" 1
    { id := "b", amount := JsNum.num 3, category := "Gas",
      date := "2024-02-06", description := "y", createdAt := "t1" }
    (by decide) (by decide) (by decide) (by decide)).2.1

/-! ## C3: CSV export -/

/-- C3: on the claim's single record, the part_000 ("Final Fixed
Version") CSV export produces exactly the claimed header and line with
the description wrapped in double quotes and the inner quotes doubled,
while the script.js export emits the same description cell WITHOUT the
surrounding quotes (its `replace` doubles the quotes but nothing wraps
the cell), so script.js's output is not standard CSV quoting. -/
theorem csv_export_c3 :
    exportExpensesToCsvContentFixed
        [{ id := "x1", amount := JsNum.num (25 / 2), category := "Food",
           date := "2024-01-05", description := "Lunch \"special\"",
           createdAt := "2024-01-05T00:00:00.000Z" }] =
      "ID,Date,Category,Description,Amount\nx1,2024-01-05,Food,\"Lunch \"\"special\"\"\",12.50" ∧
    exportExpensesToCsvContent
        [{ id := "x1", amount := JsNum.num (25 / 2), category := "Food",
           date := "2024-01-05", description := "Lunch \"special\"",
           createdAt := "2024-01-05T00:00:00.000Z" }] =
      "ID,Date,Category,Description,Amount\nx1,2024-01-05,Food,Lunch \"\"special\"\",12.50" := by
  have hfl : (⌊(25 / 2 : ℚ) * 100 + 1 / 2⌋ : ℤ) = 1250 := by norm_num
  have hf : (JsNum.num (25 / 2)).toFixed2 = "12.50" := by
    simp only [JsNum.toFixed2, hfl]
    decide
  constructor
  · simp only [exportExpensesToCsvContentFixed, List.map_cons, List.map_nil,
      hf]
    decide
  · simp only [exportExpensesToCsvContent, List.map_cons, List.map_nil, hf]
    decide

/-! ## C1: the create validation rule -/

/-- C1 (amended): a create submission (`editingId` empty) fails -
returning no record and leaving the collection unchanged - exactly when
the parsed amount is NaN or not strictly positive (so a non-finite
`+Infinity` amount is accepted), or the trimmed category is empty, or
the date value is empty (the source does not trim it), or the trimmed
description is empty; on success exactly the one new record is appended,
carrying the submitted amount and date, the trimmed category and
description, the generated id and the creation timestamp. -/
theorem create_c1 (expenses : List Expense) (form : ExpenseForm)
    (freshId nowIso : String) (hedit : form.editingId = "") :
    (createRejects form = true →
      createExpenseFromForm form freshId nowIso = none ∧
      handleFormSubmit expenses form freshId nowIso = expenses) ∧
    (createRejects form = false →
      createExpenseFromForm form freshId nowIso = some
        { id := freshId, amount := form.amount,
          category := jsTrim form.category, date := form.date,
          description := jsTrim form.description, createdAt := nowIso } ∧
      handleFormSubmit expenses form freshId nowIso =
        expenses ++
          [{ id := freshId, amount := form.amount,
             category := jsTrim form.category, date := form.date,
             description := jsTrim form.description,
             createdAt := nowIso }]) := by
  have hne : ¬(form.editingId ≠ "") := fun hcon => hcon hedit
  constructor
  · intro hrej
    have hnone : createExpenseFromForm form freshId nowIso = none := by
      unfold createExpenseFromForm
      by_cases h1 :
        (form.amount.isNaNb || JsNum.le form.amount (JsNum.num 0)) = true
      · rw [if_pos h1]
      · rw [if_neg h1]
        unfold createRejects at hrej
        simp only [Bool.or_eq_true, beq_iff_eq] at hrej
        simp only [Bool.or_eq_true, not_or] at h1
        have hflds : jsTrim form.category = "" ∨ form.date = "" ∨
            jsTrim form.description = "" := by
          rcases hrej with ((((ha | hb) | hc) | hd) | he)
          · exact absurd ha h1.1
          · exact absurd hb h1.2
          · exact Or.inl hc
          · exact Or.inr (Or.inl hd)
          · exact Or.inr (Or.inr he)
        rw [if_pos hflds]
    refine ⟨hnone, ?_⟩
    unfold handleFormSubmit
    rw [if_neg hne, hnone]
  · intro hok
    unfold createRejects at hok
    simp only [Bool.or_eq_false_iff, beq_eq_false_iff_ne, ne_eq] at hok
    obtain ⟨⟨⟨⟨ha, hb⟩, hc⟩, hd⟩, he⟩ := hok
    have hsome : createExpenseFromForm form freshId nowIso = some
        { id := freshId, amount := form.amount,
          category := jsTrim form.category, date := form.date,
          description := jsTrim form.description, createdAt := nowIso } := by
      unfold createExpenseFromForm
      rw [if_neg (by simp [ha, hb]), if_neg (by simp [hc, hd, he])]
    refine ⟨hsome, ?_⟩
    unfold handleFormSubmit
    rw [if_neg hne, hsome]

/-- C1, counterexample to the claim as stated: `createExpenseFromForm`
accepts an amount of `+Infinity` (e.g. typing `1e500`, whose
`parseFloat` is `Infinity`) although it is not a finite number, and
accepts a whitespace-only date value although it is empty after
trimming; in both cases the claim requires a `ValidationError`. -/
theorem create_c1_counterexample :
    (createExpenseFromForm
        { editingId := "", amount := JsNum.inf true, category := "Food",
          date := "2024-01-05", description := "Lunch" } "id1"
        "t1").isSome = true ∧
    (JsNum.inf true).isFinite = false ∧
    (createExpenseFromForm
        { editingId := "", amount := JsNum.num 10, category := "Food",
          date := " ", description := "Lunch" } "id2" "t2").isSome = true ∧
    jsTrim " " = "" := by
  decide

theorem create_c1_witness :
    handleFormSubmit []
      { editingId := "", amount := JsNum.num 10, category := " Food ",
        date := "2024-01-05", description := "Lunch" } "id1" "t1" =
      [{ id := "id1", amount := JsNum.num 10, category := "Food",
         date := "2024-01-05", description := "Lunch",
         createdAt := "t1" }] := by
  have h := (create_c1 []
    { editingId := "", amount := JsNum.num 10, category := " Food ",
      date := "2024-01-05", description := "Lunch" } "id1" "t1" rfl).2
    (by decide)
  exact h.2

/-! ## C4: lemmas about the summary pass -/

theorem isFinite_iff (x : JsNum) :
    x.isFinite = true ↔ ∃ q : ℚ, x = JsNum.num q := by
  cases x <;> simp [JsNum.isFinite]

theorem summary_foldl_proj (l : List Expense) (k : String) (a b : JsNum)
    (m : List (String × JsNum)) :
    l.foldl (summaryStep k) (a, b, m) =
      (l.foldl (fun t e => JsNum.add t e.amount) a,
       l.foldl
         (fun t e =>
           if getYearMonthKey e.date == k then JsNum.add t e.amount else t) b,
       l.foldl (fun m e => bucketAdd m e.category e.amount) m) := by
  induction l generalizing a b m with
  | nil => rfl
  | cons e t ih =>
    simp only [List.foldl_cons]
    exact ih _ _ _

theorem qSum_nil : qSum [] = 0 := rfl

theorem qSum_cons (e : Expense) (l : List Expense) :
    qSum (e :: l) = e.amount.toQ + qSum l := by
  simp [qSum]

theorem qSum_append (l₁ l₂ : List Expense) :
    qSum (l₁ ++ l₂) = qSum l₁ + qSum l₂ := by
  simp [qSum]

theorem mem_seenKeys_foldl (l : List Expense) (ks : List String)
    (c : String) :
    (c ∈ l.foldl
        (fun ks e => if e.category ∈ ks then ks else ks ++ [e.category])
        ks) ↔
      c ∈ ks ∨ ∃ e ∈ l, e.category = c := by
  induction l generalizing ks with
  | nil => simp
  | cons e t ih =>
    simp only [List.foldl_cons]
    by_cases h : e.category ∈ ks
    · rw [if_pos h, ih]
      constructor
      · rintro (hc | hc)
        · exact Or.inl hc
        · exact Or.inr (by simpa using Or.inr hc)
      · rintro (hc | hc)
        · exact Or.inl hc
        · rcases hc with ⟨e', he', hcat⟩
          rcases List.mem_cons.mp he' with rfl | he'
          · exact Or.inl (hcat ▸ h)
          · exact Or.inr ⟨e', he', hcat⟩
    · rw [if_neg h, ih]
      simp only [List.mem_append, List.mem_singleton]
      constructor
      · rintro ((hc | hc) | hc)
        · exact Or.inl hc
        · exact Or.inr ⟨e, List.mem_cons_self e t, hc.symm⟩
        · rcases hc with ⟨e', he', hcat⟩
          exact Or.inr ⟨e', List.mem_cons_of_mem e he', hcat⟩
      · rintro (hc | hc)
        · exact Or.inl (Or.inl hc)
        · rcases hc with ⟨e', he', hcat⟩
          rcases List.mem_cons.mp he' with rfl | he'
          · exact Or.inl (Or.inr hcat.symm)
          · exact Or.inr ⟨e', he', hcat⟩

theorem mem_seenKeys (l : List Expense) (c : String) :
    c ∈ seenKeys l ↔ ∃ e ∈ l, e.category = c := by
  rw [seenKeys, mem_seenKeys_foldl]
  simp

theorem seenKeys_foldl_nodup (l : List Expense) (ks : List String)
    (h : ks.Nodup) :
    (l.foldl
        (fun ks e => if e.category ∈ ks then ks else ks ++ [e.category])
        ks).Nodup := by
  induction l generalizing ks with
  | nil => exact h
  | cons e t ih =>
    simp only [List.foldl_cons]
    by_cases hm : e.category ∈ ks
    · rw [if_pos hm]
      exact ih _ h
    · rw [if_neg hm]
      refine ih _ ?_
      simp [List.nodup_append, h, hm]

theorem seenKeys_nodup (l : List Expense) : (seenKeys l).Nodup :=
  seenKeys_foldl_nodup l [] List.nodup_nil

theorem seenKeys_append_singleton (l : List Expense) (a : Expense) :
    seenKeys (l ++ [a]) =
      if a.category ∈ seenKeys l then seenKeys l
      else seenKeys l ++ [a.category] := by
  simp [seenKeys, List.foldl_append]

theorem find?_map_keys (ks : List String) (f : String → JsNum)
    (c : String) :
    ((ks.map (fun k => (k, f k))).find? (fun p => p.1 == c)) =
      if c ∈ ks then some (c, f c) else none := by
  induction ks with
  | nil => simp
  | cons k t ih =>
    simp only [List.map_cons]
    by_cases h : (k == c) = true
    · have hk : k = c := beq_iff_eq.mp h
      subst hk
      rw [List.find?_cons_of_pos _ (by simp),
        if_pos (List.mem_cons_self k t)]
    · have hk : k ≠ c := fun hcon => h (beq_iff_eq.mpr hcon)
      rw [List.find?_cons_of_neg _ (by simpa using h), ih]
      by_cases hct : c ∈ t
      · rw [if_pos hct, if_pos (List.mem_cons_of_mem k hct)]
      · rw [if_neg hct, if_neg (fun hcon => ?_)]
        rcases List.mem_cons.mp hcon with rfl | hcon
        · exact hk rfl
        · exact hct hcon

theorem bucketAdd_lookup_some (m : List (String × JsNum)) (k : String)
    (a v : JsNum) (h : bucketLookup m k = some v) :
    bucketAdd m k a =
      m.map (fun p =>
        if (p.1 == k) = true then
          (p.1, JsNum.add (if v.isFalsy = true then JsNum.num 0 else v) a)
        else p) := by
  unfold bucketAdd
  rw [h]

theorem bucketAdd_lookup_none (m : List (String × JsNum)) (k : String)
    (a : JsNum) (h : bucketLookup m k = none) :
    bucketAdd m k a = m ++ [(k, JsNum.add (JsNum.num 0) a)] := by
  unfold bucketAdd
  rw [h]

theorem bucketLookup_map_keys (ks : List String) (f : String → JsNum)
    (c : String) :
    bucketLookup (ks.map (fun k => (k, f k))) c =
      if c ∈ ks then some (f c) else none := by
  rw [bucketLookup, find?_map_keys]
  by_cases h : c ∈ ks
  · rw [if_pos h, if_pos h]
    rfl
  · rw [if_neg h, if_neg h]
    rfl

/-- The heart of C4: with all amounts finite, the `categoryTotals`
object maps each first-seen category to the exact sum of the amounts of
its records (the falsy-reset in the source is a no-op on finite
values). -/
theorem bucketsOf_eq (l : List Expense)
    (hfin : ∀ e ∈ l, e.amount.isFinite = true) :
    bucketsOf l =
      (seenKeys l).map
        (fun c =>
          (c, JsNum.num (qSum (l.filter (fun e => e.category = c))))) := by
  induction l using List.reverseRecOn with
  | nil => rfl
  | append_singleton l a ih =>
    have hfl : ∀ e ∈ l, e.amount.isFinite = true := fun e he =>
      hfin e (List.mem_append_left _ he)
    have hfa : a.amount.isFinite = true :=
      hfin a (List.mem_append_right _ (List.mem_singleton_self a))
    obtain ⟨qa, hqa⟩ := (isFinite_iff _).mp hfa
    have hstep : bucketsOf (l ++ [a]) =
        bucketAdd (bucketsOf l) a.category a.amount := by
      simp [bucketsOf, List.foldl_append]
    rw [hstep, ih hfl, seenKeys_append_singleton]
    by_cases hmem : a.category ∈ seenKeys l
    · rw [if_pos hmem]
      rw [bucketAdd_lookup_some _ _ _ _
        (by rw [bucketLookup_map_keys, if_pos hmem])]
      have hval : (if (JsNum.num
            (qSum (l.filter (fun e => e.category = a.category)))).isFalsy =
              true then JsNum.num 0
          else JsNum.num (qSum (l.filter (fun e => e.category = a.category))))
          = JsNum.num (qSum (l.filter (fun e => e.category = a.category))) := by
        by_cases hz :
            qSum (l.filter (fun e => e.category = a.category)) = 0
        · simp [JsNum.isFalsy, hz]
        · simp [JsNum.isFalsy, hz]
      rw [hval, List.map_map]
      refine List.map_congr_left ?_
      intro c hc
      simp only [Function.comp_apply]
      by_cases hca : (c == a.category) = true
      · have hceq : c = a.category := beq_iff_eq.mp hca
        subst hceq
        rw [if_pos hca]
        rw [List.filter_append]
        have hsing :
            List.filter (fun e => decide (e.category = a.category)) [a] =
              [a] := by
          simp
        rw [hsing, qSum_append, hqa]
        simp [JsNum.add, qSum_cons, qSum_nil, JsNum.toQ, hqa]
      · have hcne : c ≠ a.category := fun hcon => hca (beq_iff_eq.mpr hcon)
        rw [if_neg (by simpa using hca)]
        rw [List.filter_append]
        have : List.filter (fun e => decide (e.category = c)) [a] = [] := by
          simp [hcne.symm]
        rw [this, List.append_nil]
    · rw [if_neg hmem]
      rw [bucketAdd_lookup_none _ _ _
        (by rw [bucketLookup_map_keys, if_neg hmem]), List.map_append]
      congr 1
      · refine List.map_congr_left ?_
        intro c hc
        have hcne : c ≠ a.category := fun hcon => hmem (hcon ▸ hc)
        rw [List.filter_append]
        have : List.filter (fun e => decide (e.category = c)) [a] = [] := by
          simp [hcne.symm]
        rw [this, List.append_nil]
      · have hnone : l.filter (fun e => e.category = a.category) = [] := by
          rw [List.filter_eq_nil_iff]
          intro e he
          simp only [decide_eq_true_eq]
          intro hcat
          exact hmem ((mem_seenKeys l a.category).mpr ⟨e, he, hcat⟩)
        simp only [List.map_cons, List.map_nil, List.filter_append, hnone,
          List.nil_append]
        have : List.filter (fun e => decide (e.category = a.category)) [a]
            = [a] := by simp
        rw [this, hqa]
        simp [JsNum.add, qSum_cons, qSum_nil, JsNum.toQ, hqa]

theorem sum_map_zero_q (ks : List String) :
    (ks.map (fun _ => (0 : ℚ))).sum = 0 := by
  induction ks with
  | nil => rfl
  | cons k t ih => simp [ih]

theorem sum_map_add_q (ks : List String) (g h : String → ℚ) :
    (ks.map (fun c => g c + h c)).sum = (ks.map g).sum + (ks.map h).sum := by
  induction ks with
  | nil => simp
  | cons k t ih =>
    simp only [List.map_cons, List.sum_cons, ih]
    ring

theorem sum_map_ite_of_not_mem (ks : List String) (x : String) (v : ℚ)
    (hx : x ∉ ks) :
    (ks.map (fun c => if x = c then v else 0)).sum = 0 := by
  induction ks with
  | nil => rfl
  | cons k t ih =>
    have hxk : x ≠ k := fun hcon => hx (hcon ▸ List.mem_cons_self k t)
    have hxt : x ∉ t := fun hcon => hx (List.mem_cons_of_mem k hcon)
    simp [hxk, ih hxt]

theorem sum_map_ite_eq_q (ks : List String) (x : String) (v : ℚ)
    (hnd : ks.Nodup) (hx : x ∈ ks) :
    (ks.map (fun c => if x = c then v else 0)).sum = v := by
  induction ks with
  | nil => exact absurd hx (List.not_mem_nil x)
  | cons k t ih =>
    rcases List.mem_cons.mp hx with rfl | hxt
    · have hkt : x ∉ t := (List.nodup_cons.mp hnd).1
      simp [sum_map_ite_of_not_mem t x v hkt]
    · have hxk : x ≠ k := fun hcon =>
        (List.nodup_cons.mp hnd).1 (hcon ▸ hxt)
      simp [hxk, ih (List.nodup_cons.mp hnd).2 hxt]

theorem qsum_partition (ks : List String) (l : List Expense)
    (hnd : ks.Nodup) (hcov : ∀ e ∈ l, e.category ∈ ks) :
    (ks.map (fun c => qSum (l.filter (fun e => e.category = c)))).sum =
      qSum l := by
  induction l with
  | nil =>
    have : ∀ c ∈ ks,
        qSum (List.filter (fun e => decide (e.category = c)) []) = 0 := by
      intro c _
      rfl
    rw [List.map_congr_left (fun c hc => this c hc), sum_map_zero_q]
    rfl
  | cons e t ih =>
    have hsplit : ∀ c,
        qSum ((e :: t).filter (fun e => e.category = c)) =
          (if e.category = c then e.amount.toQ else 0) +
            qSum (t.filter (fun e => e.category = c)) := by
      intro c
      rw [List.filter_cons]
      by_cases h : e.category = c
      · simp [h, qSum_cons]
      · simp [h]
    rw [List.map_congr_left (fun c _ => hsplit c), sum_map_add_q,
      sum_map_ite_eq_q ks e.category e.amount.toQ hnd
        (hcov e (List.mem_cons_self e t)),
      ih (fun e' he' => hcov e' (List.mem_cons_of_mem e he')), qSum_cons]

theorem foldl_add_num (l : List Expense) (s : ℚ)
    (hfin : ∀ e ∈ l, e.amount.isFinite = true) :
    l.foldl (fun t e => JsNum.add t e.amount) (JsNum.num s) =
      JsNum.num (s + qSum l) := by
  induction l generalizing s with
  | nil => simp [qSum_nil]
  | cons e t ih =>
    obtain ⟨qa, hqa⟩ := (isFinite_iff _).mp (hfin e (List.mem_cons_self e t))
    rw [List.foldl_cons, hqa]
    show List.foldl _ (JsNum.num (s + qa)) t = _
    rw [ih _ (fun e' he' => hfin e' (List.mem_cons_of_mem e he')), qSum_cons,
      hqa]
    simp [JsNum.toQ]
    ring

theorem foldl_add_pairs (ks : List String) (f : String → ℚ) (s : ℚ) :
    ((ks.map (fun c => (c, JsNum.num (f c)))).foldl
        (fun t p => JsNum.add t p.2) (JsNum.num s)) =
      JsNum.num (s + (ks.map f).sum) := by
  induction ks generalizing s with
  | nil => simp
  | cons k t ih =>
    simp only [List.map_cons, List.foldl_cons, List.sum_cons]
    show List.foldl _ (JsNum.num (s + f k)) _ = _
    rw [ih]
    ring_nf

/-- C4: the aggregator's `allTimeTotal` is the single left-to-right pass
sum of all record amounts, and the per-category totals partition the
collection exhaustively: `categoryTotals` maps each first-seen category
to exactly the sum of its own records' amounts, so the sum over all
category totals equals `allTimeTotal`.  (The hypothesis restricts to
collections with finite amounts, which is the record data model.) -/
theorem aggregator_c4 (expenses : List Expense) (currentMonthKey : String)
    (hfin : ∀ e ∈ expenses, e.amount.isFinite = true) :
    (renderSummary expenses currentMonthKey).allTimeTotal =
      expenses.foldl (fun t e => JsNum.add t e.amount) (JsNum.num 0) ∧
    (renderSummary expenses currentMonthKey).categoryTotals =
      (seenKeys expenses).map
        (fun c =>
          (c,
            JsNum.num (qSum (expenses.filter (fun e => e.category = c))))) ∧
    ((renderSummary expenses currentMonthKey).categoryTotals.foldl
        (fun t p => JsNum.add t p.2) (JsNum.num 0)) =
      (renderSummary expenses currentMonthKey).allTimeTotal := by
  have hall : (renderSummary expenses currentMonthKey).allTimeTotal =
      expenses.foldl (fun t e => JsNum.add t e.amount) (JsNum.num 0) := by
    unfold renderSummary
    rw [summary_foldl_proj]
  have hcats : (renderSummary expenses currentMonthKey).categoryTotals =
      (seenKeys expenses).map
        (fun c =>
          (c,
            JsNum.num (qSum (expenses.filter (fun e => e.category = c))))) := by
    have : (renderSummary expenses currentMonthKey).categoryTotals =
        bucketsOf expenses := by
      unfold renderSummary bucketsOf
      rw [summary_foldl_proj]
    rw [this, bucketsOf_eq expenses hfin]
  refine ⟨hall, hcats, ?_⟩
  rw [hall, hcats, foldl_add_pairs, foldl_add_num expenses 0 hfin,
    qsum_partition (seenKeys expenses) expenses (seenKeys_nodup expenses)
      (fun e he => (mem_seenKeys expenses e.category).mpr ⟨e, he, rfl⟩)]

theorem aggregator_c4_witness :
    ((renderSummary
        [{ id := "a", amount := JsNum.num 100, category := "A",
           date := "2024-01-05", description := "x", createdAt := "t" },
         { id := "b", amount := JsNum.num 200, category := "A",
           date := "2024-01-06", description := "y", createdAt := "t" },
         { id := "c", amount := JsNum.num 300, category := "B",
           date := "2024-01-07", description := "z", createdAt := "t" }]
        "2024-01").categoryTotals.foldl
      (fun t p => JsNum.add t p.2) (JsNum.num 0)) =
      (renderSummary
        [{ id := "a", amount := JsNum.num 100, category := "A",
           date := "2024-01-05", description := "x", createdAt := "t" },
         { id := "b", amount := JsNum.num 200, category := "A",
           date := "2024-01-06", description := "y", createdAt := "t" },
         { id := "c", amount := JsNum.num 300, category := "B",
           date := "2024-01-07", description := "z", createdAt := "t" }]
        "2024-01").allTimeTotal :=
  (aggregator_c4
    [{ id := "a", amount := JsNum.num 100, category := "A",
       date := "2024-01-05", description := "x", createdAt := "t" },
     { id := "b", amount := JsNum.num 200, category := "A",
       date := "2024-01-06", description := "y", createdAt := "t" },
     { id := "c", amount := JsNum.num 300, category := "B",
       date := "2024-01-07", description := "z", createdAt := "t" }]
    "2024-01" (by decide)).2.2

/-! ## C5: the top-category scan -/

theorem qscan_inv (ts : List (String × ℚ)) (b : String × ℚ) :
    (ts.foldl (fun best p => if best.2 < p.2 then p else best) b = b ∧
      ∀ p ∈ ts, p.2 ≤ b.2) ∨
    (b.2 < (ts.foldl (fun best p => if best.2 < p.2 then p else best) b).2 ∧
      ∃ l1 l2,
        ts = l1 ++
          (ts.foldl (fun best p => if best.2 < p.2 then p else best) b) ::
            l2 ∧
        (∀ p ∈ l1,
          p.2 <
            (ts.foldl (fun best p => if best.2 < p.2 then p else best)
              b).2) ∧
        (∀ p ∈ l2,
          p.2 ≤
            (ts.foldl (fun best p => if best.2 < p.2 then p else best)
              b).2)) := by
  induction ts generalizing b with
  | nil =>
    left
    exact ⟨rfl, by simp⟩
  | cons p rest ih =>
    simp only [List.foldl_cons]
    by_cases h : b.2 < p.2
    · rw [if_pos h]
      rcases ih p with ⟨heq, hle⟩ | ⟨hlt, l1, l2, hsplit, hl1, hl2⟩
      · right
        rw [heq]
        exact ⟨h, [], rest, rfl, by simp, hle⟩
      · right
        refine ⟨lt_trans h hlt, p :: l1, l2,
          congrArg (List.cons p) hsplit, ?_, hl2⟩
        intro x hx
        rcases List.mem_cons.mp hx with rfl | hx
        · exact hlt
        · exact hl1 x hx
    · rw [if_neg h]
      rcases ih b with ⟨heq, hle⟩ | ⟨hlt, l1, l2, hsplit, hl1, hl2⟩
      · left
        refine ⟨heq, ?_⟩
        intro x hx
        rcases List.mem_cons.mp hx with rfl | hx
        · exact le_of_not_lt h
        · exact hle x hx
      · right
        refine ⟨hlt, p :: l1, l2, congrArg (List.cons p) hsplit, ?_, hl2⟩
        intro x hx
        rcases List.mem_cons.mp hx with rfl | hx
        · exact lt_of_le_of_lt (le_of_not_lt h) hlt
        · exact hl1 x hx

theorem jsfold_map_num (ts : List (String × ℚ)) (b : String × ℚ) :
    (ts.map (fun p => (p.1, JsNum.num p.2))).foldl
        (fun best p => if JsNum.lt best.2 p.2 = true then p else best)
        (b.1, JsNum.num b.2) =
      ((ts.foldl (fun best p => if best.2 < p.2 then p else best) b).1,
       JsNum.num
         (ts.foldl (fun best p => if best.2 < p.2 then p else best) b).2) := by
  induction ts generalizing b with
  | nil => rfl
  | cons p rest ih =>
    simp only [List.map_cons, List.foldl_cons]
    have hlt : JsNum.lt (JsNum.num b.2) (JsNum.num p.2) =
        decide (b.2 < p.2) := rfl
    by_cases h : b.2 < p.2
    · rw [if_pos h]
      have : (JsNum.lt (JsNum.num b.2) (JsNum.num p.2)) = true := by
        rw [hlt]
        exact decide_eq_true h
      rw [if_pos this]
      exact ih p
    · rw [if_neg h]
      have : ¬(JsNum.lt (JsNum.num b.2) (JsNum.num p.2)) = true := by
        rw [hlt]
        simp [h]
      rw [if_neg this]
      exact ih b

theorem topScan_map_num (ks : List String) (f : String → ℚ) :
    topScan (ks.map (fun c => (c, JsNum.num (f c)))) =
      (((ks.map (fun c => (c, f c))).foldl
          (fun best p => if best.2 < p.2 then p else best) ("–", 0)).1,
       JsNum.num
         ((ks.map (fun c => (c, f c))).foldl
           (fun best p => if best.2 < p.2 then p else best) ("–", 0)).2) := by
  have hmaps : ks.map (fun c => (c, JsNum.num (f c))) =
      (ks.map (fun c => (c, f c))).map (fun p => (p.1, JsNum.num p.2)) := by
    rw [List.map_map]
    rfl
  rw [topScan, hmaps]
  exact jsfold_map_num (ks.map (fun c => (c, f c))) ("–", 0)

theorem find?_prefix_false {α : Type} (p : α → Bool) (l1 : List α) (x : α)
    (l2 : List α) (h1 : ∀ y ∈ l1, p y = false) (hx : p x = true) :
    (l1 ++ x :: l2).find? p = some x := by
  induction l1 with
  | nil => exact List.find?_cons_of_pos _ hx
  | cons y t ih =>
    rw [List.cons_append,
      List.find?_cons_of_neg _ (by simp [h1 y (List.mem_cons_self y t)])]
    exact ih (fun z hz => h1 z (List.mem_cons_of_mem y hz))

theorem qscan_cases (ts : List (String × ℚ)) (b : String × ℚ) :
    ∃ r, ts.foldl (fun best p => if best.2 < p.2 then p else best) b = r ∧
      ((r = b ∧ ∀ p ∈ ts, p.2 ≤ b.2) ∨
       (b.2 < r.2 ∧ ∃ l1 l2, ts = l1 ++ r :: l2 ∧
         (∀ p ∈ l1, p.2 < r.2) ∧ (∀ p ∈ l2, p.2 ≤ r.2))) :=
  ⟨_, rfl, qscan_inv ts b⟩

/-- `topScan` over buckets with finite values: if every total is
non-positive the sentinel survives; if some total is positive, the
result is the first-seen entry achieving the (strictly positive)
maximum. -/
theorem topScan_spec (ts : List (String × ℚ)) :
    ((∀ p ∈ ts, p.2 ≤ 0) →
      topScan (ts.map (fun p => (p.1, JsNum.num p.2))) =
        ("–", JsNum.num 0)) ∧
    ((∃ p ∈ ts, 0 < p.2) →
      ∃ q, q ∈ ts ∧
        topScan (ts.map (fun p => (p.1, JsNum.num p.2))) =
          (q.1, JsNum.num q.2) ∧
        0 < q.2 ∧ (∀ p ∈ ts, p.2 ≤ q.2) ∧
        (ts.map (fun p => (p.1, JsNum.num p.2))).find?
            (fun p => JsNum.le (JsNum.num q.2) p.2) =
          some (q.1, JsNum.num q.2)) := by
  have hTS : topScan (ts.map (fun p => (p.1, JsNum.num p.2))) =
      ((ts.foldl (fun best p => if best.2 < p.2 then p else best)
          ("–", 0)).1,
       JsNum.num
         ((ts.foldl (fun best p => if best.2 < p.2 then p else best)
           ("–", 0)).2)) := by
    rw [topScan]
    exact jsfold_map_num ts ("–", 0)
  obtain ⟨r, hr, hinv⟩ := qscan_cases ts ("–", 0)
  rw [hr] at hTS
  constructor
  · intro hall
    rcases hinv with ⟨heq, _⟩ | ⟨hpos, l1, l2, hsplit, hl1, hl2⟩
    · rw [hTS, heq]
    · exfalso
      have hrts : r ∈ ts := by
        rw [hsplit]
        exact List.mem_append_right _ (List.mem_cons_self _ _)
      have h0 : (0 : ℚ) < r.2 := hpos
      exact absurd h0 (not_lt.mpr (hall _ hrts))
  · rintro ⟨p, hp, hppos⟩
    rcases hinv with ⟨heq, hle⟩ | ⟨hpos, l1, l2, hsplit, hl1, hl2⟩
    · exact absurd hppos (not_lt.mpr (hle p hp))
    · refine ⟨r, ?_, hTS, hpos, ?_, ?_⟩
      · rw [hsplit]
        exact List.mem_append_right _ (List.mem_cons_self _ _)
      · intro q hq
        rw [hsplit] at hq
        rcases List.mem_append.mp hq with hq | hq
        · exact le_of_lt (hl1 q hq)
        · rcases List.mem_cons.mp hq with rfl | hq
          · exact le_refl _
          · exact hl2 q hq
      · rw [hsplit, List.map_append, List.map_cons]
        refine find?_prefix_false _ _ _ _ ?_ ?_
        · intro y hy
          obtain ⟨q, hq, hqe⟩ := List.mem_map.mp hy
          rw [← hqe]
          have hqlt : ¬(r.2 ≤ q.2) := not_le.mpr (hl1 q hq)
          simp [JsNum.le, hqlt]
        · simp [JsNum.le]

/-- C5: the selected `topCategory` is the category with strictly
greatest total; among ties the first-seen greatest is kept (expressed by
the `find?` clause: the winner is the first entry whose total reaches
the maximum), a zero (or non-positive) total never wins over any
positive total, and when every total is non-positive - in particular
when all totals are 0 or the collection is empty - the en-dash "none"
sentinel is kept with `topCategoryAmount = 0`.  The hypotheses restrict
to finite amounts (the record data model) and to category names that are
not array-index strings, for which the insertion-order model of the
`categoryTotals` object matches JavaScript's enumeration order. -/
theorem top_category_c5 (expenses : List Expense) (currentMonthKey : String)
    (hfin : ∀ e ∈ expenses, e.amount.isFinite = true)
    (_hidx : ∀ e ∈ expenses, isArrayIndexStr e.category = false) :
    ((∀ p ∈ (renderSummary expenses currentMonthKey).categoryTotals,
        JsNum.le p.2 (JsNum.num 0) = true) →
      (renderSummary expenses currentMonthKey).topCategoryName = "–" ∧
      (renderSummary expenses currentMonthKey).topCategoryAmount =
        JsNum.num 0) ∧
    ((∃ p ∈ (renderSummary expenses currentMonthKey).categoryTotals,
        JsNum.lt (JsNum.num 0) p.2 = true) →
      ∃ w, w ∈ (renderSummary expenses currentMonthKey).categoryTotals ∧
        (renderSummary expenses currentMonthKey).topCategoryName = w.1 ∧
        (renderSummary expenses currentMonthKey).topCategoryAmount = w.2 ∧
        JsNum.lt (JsNum.num 0) w.2 = true ∧
        (∀ p ∈ (renderSummary expenses currentMonthKey).categoryTotals,
          JsNum.le p.2 w.2 = true) ∧
        (renderSummary expenses currentMonthKey).categoryTotals.find?
            (fun p => JsNum.le w.2 p.2) = some w) := by
  have hname : (renderSummary expenses currentMonthKey).topCategoryName =
      (topScan ((renderSummary expenses currentMonthKey).categoryTotals)).1 :=
    rfl
  have hamt : (renderSummary expenses currentMonthKey).topCategoryAmount =
      (topScan
        ((renderSummary expenses currentMonthKey).categoryTotals)).2 := rfl
  have hcatsB : (renderSummary expenses currentMonthKey).categoryTotals =
      bucketsOf expenses := by
    unfold renderSummary bucketsOf
    rw [summary_foldl_proj]
  have hcats : (renderSummary expenses currentMonthKey).categoryTotals =
      ((seenKeys expenses).map
          (fun c =>
            (c, qSum (expenses.filter (fun e => e.category = c))))).map
        (fun p => (p.1, JsNum.num p.2)) := by
    rw [hcatsB, bucketsOf_eq expenses hfin, List.map_map]
    rfl
  obtain ⟨hzero, hposcase⟩ := topScan_spec
    ((seenKeys expenses).map
      (fun c => (c, qSum (expenses.filter (fun e => e.category = c)))))
  constructor
  · intro hall
    have hall' : ∀ p ∈ (seenKeys expenses).map
        (fun c => (c, qSum (expenses.filter (fun e => e.category = c)))),
        p.2 ≤ 0 := by
      intro p hp
      have hmem : (p.1, JsNum.num p.2) ∈
          (renderSummary expenses currentMonthKey).categoryTotals := by
        rw [hcats]
        exact List.mem_map.mpr ⟨p, hp, rfl⟩
      have := hall _ hmem
      simpa [JsNum.le] using this
    have hsent := hzero hall'
    rw [← hcats] at hsent
    exact ⟨by rw [hname, hsent], by rw [hamt, hsent]⟩
  · rintro ⟨p, hp, hppos⟩
    rw [hcats] at hp
    obtain ⟨q, hq, hqe⟩ := List.mem_map.mp hp
    rw [← hqe] at hppos
    have hq0 : (0 : ℚ) < q.2 := by
      simpa [JsNum.lt] using hppos
    obtain ⟨w, hwmem, hwscan, hwpos, hwmax, hwfind⟩ :=
      hposcase ⟨q, hq, hq0⟩
    rw [← hcats] at hwscan hwfind
    refine ⟨(w.1, JsNum.num w.2), ?_, ?_, ?_, ?_, ?_, ?_⟩
    · rw [hcats]
      exact List.mem_map.mpr ⟨w, hwmem, rfl⟩
    · rw [hname, hwscan]
    · rw [hamt, hwscan]
    · simp [JsNum.lt, hwpos]
    · intro p' hp'
      rw [hcats] at hp'
      obtain ⟨q', hq', hq'e⟩ := List.mem_map.mp hp'
      rw [← hq'e]
      simp [JsNum.le, hwmax q' hq']
    · exact hwfind

theorem top_category_c5_witness :
    (renderSummary [] "2024-01").topCategoryName = "–" ∧
    (renderSummary [] "2024-01").topCategoryAmount = JsNum.num 0 :=
  (top_category_c5 [] "2024-01" (by decide) (by decide)).1 (by decide)

/-! ## C8: sortedness and stability of the comparator sort -/

theorem stableInsert_pairwise (le : α → α → Bool) (x : α) (m : List α)
    (hm : m.Pairwise (fun a b => le a b = true))
    (htot : ∀ b ∈ m, le x b = true ∨ le b x = true)
    (htr : ∀ b ∈ m, ∀ c ∈ m, le x b = true → le b c = true →
      le x c = true) :
    (stableInsert le x m).Pairwise (fun a b => le a b = true) := by
  induction m with
  | nil => simp [stableInsert]
  | cons y ys ih =>
    obtain ⟨hy, hys⟩ := List.pairwise_cons.mp hm
    by_cases h : le x y = true
    · rw [show stableInsert le x (y :: ys) = x :: y :: ys from by
        simp [stableInsert, h]]
      refine List.pairwise_cons.mpr ⟨?_, hm⟩
      intro z hz
      rcases List.mem_cons.mp hz with rfl | hz
      · exact h
      · exact htr y (List.mem_cons_self y ys) z (List.mem_cons_of_mem y hz)
          h (hy z hz)
    · rw [show stableInsert le x (y :: ys) = y :: stableInsert le x ys from
        by simp [stableInsert, h]]
      refine List.pairwise_cons.mpr ⟨?_, ?_⟩
      · intro z hz
        rcases (mem_stableInsert le x z ys).mp hz with rfl | hz
        · rcases htot y (List.mem_cons_self y ys) with hxy | hyx
          · exact absurd hxy h
          · exact hyx
        · exact hy z hz
      · exact ih hys
          (fun b hb => htot b (List.mem_cons_of_mem y hb))
          (fun b hb c hc => htr b (List.mem_cons_of_mem y hb) c
            (List.mem_cons_of_mem y hc))

theorem stableSort_pairwise (le : α → α → Bool) (l : List α)
    (htot : ∀ a ∈ l, ∀ b ∈ l, le a b = true ∨ le b a = true)
    (htr : ∀ a ∈ l, ∀ b ∈ l, ∀ c ∈ l, le a b = true → le b c = true →
      le a c = true) :
    (stableSort le l).Pairwise (fun a b => le a b = true) := by
  induction l with
  | nil => simp [stableSort]
  | cons x xs ih =>
    refine stableInsert_pairwise le x (stableSort le xs)
      (ih (fun a ha b hb => htot a (List.mem_cons_of_mem x ha) b
          (List.mem_cons_of_mem x hb))
        (fun a ha b hb c hc => htr a (List.mem_cons_of_mem x ha) b
          (List.mem_cons_of_mem x hb) c (List.mem_cons_of_mem x hc)))
      ?_ ?_
    · intro b hb
      exact htot x (List.mem_cons_self x xs) b
        (List.mem_cons_of_mem x ((mem_stableSort le b xs).mp hb))
    · intro b hb c hc
      exact htr x (List.mem_cons_self x xs) b
        (List.mem_cons_of_mem x ((mem_stableSort le b xs).mp hb)) c
        (List.mem_cons_of_mem x ((mem_stableSort le c xs).mp hc))

theorem stableInsert_filter_key {κ : Type} [DecidableEq κ]
    (c : κ → κ → Bool) (key : α → κ) (hrefl : ∀ k, c k k = true) (v : κ)
    (x : α) (m : List α) :
    (stableInsert (fun a b => c (key a) (key b)) x m).filter
        (fun a => key a == v) =
      if (key x == v) = true then x :: m.filter (fun a => key a == v)
      else m.filter (fun a => key a == v) := by
  induction m with
  | nil =>
    by_cases hx : (key x == v) = true <;>
      simp [stableInsert, List.filter_cons, hx]
  | cons y ys ih =>
    by_cases hle : c (key x) (key y) = true
    · rw [show stableInsert (fun a b => c (key a) (key b)) x (y :: ys) =
          x :: y :: ys from by simp [stableInsert, hle]]
      rw [List.filter_cons]
    · rw [show stableInsert (fun a b => c (key a) (key b)) x (y :: ys) =
          y :: stableInsert (fun a b => c (key a) (key b)) x ys from by
        simp [stableInsert, hle]]
      rw [List.filter_cons, ih]
      by_cases hx : (key x == v) = true
      · have hkxy : key y ≠ key x := fun hcon =>
          hle (by rw [hcon]; exact hrefl (key x))
        have hyv : (key y == v) = false := by
          rw [beq_eq_false_iff_ne]
          intro hcon
          exact hkxy (by rw [hcon, beq_iff_eq.mp hx])
        rw [if_pos hx, hyv, if_pos hx, List.filter_cons, hyv]
        simp
      · have hx' : (key x == v) = false := by
          rwa [Bool.not_eq_true] at hx
        rw [hx']
        simp only [Bool.false_eq_true, if_false]
        rw [List.filter_cons]

theorem stableSort_filter_key {κ : Type} [DecidableEq κ]
    (c : κ → κ → Bool) (key : α → κ) (hrefl : ∀ k, c k k = true) (v : κ)
    (l : List α) :
    (stableSort (fun a b => c (key a) (key b)) l).filter
        (fun a => key a == v) =
      l.filter (fun a => key a == v) := by
  induction l with
  | nil => rfl
  | cons x xs ih =>
    rw [show stableSort (fun a b => c (key a) (key b)) (x :: xs) =
        stableInsert (fun a b => c (key a) (key b)) x
          (stableSort (fun a b => c (key a) (key b)) xs) from rfl]
    rw [stableInsert_filter_key c key hrefl, ih, List.filter_cons]

theorem amtCmp_rel (qa qb : ℚ) :
    (!(JsNum.lt (JsNum.num 0) (JsNum.sub (JsNum.num qb) (JsNum.num qa)))) =
      decide (qb ≤ qa) := by
  show (!(decide ((0 : ℚ) < qb + -qa))) = decide (qb ≤ qa)
  rcases le_or_lt qb qa with h | h
  · rw [decide_eq_true h]
    have h2 : ¬((0 : ℚ) < qb + -qa) := by linarith
    simp [h2]
  · rw [decide_eq_false (not_le.mpr h)]
    have h2 : (0 : ℚ) < qb + -qa := by linarith
    simp [h2]

theorem le_num_num (x y : ℚ) :
    JsNum.le (JsNum.num x) (JsNum.num y) = decide (x ≤ y) := rfl

theorem subSelf_not_pos (k : JsNum) :
    (!(JsNum.lt (JsNum.num 0) (JsNum.sub k k))) = true := by
  cases k with
  | nan => rfl
  | inf p => cases p <;> rfl
  | num q =>
    show (!(decide ((0 : ℚ) < q + -q))) = true
    have h2 : ¬((0 : ℚ) < q + -q) := by simp
    simp [h2]

/-- C8: with `sortKey = amountDesc` the query result's amounts are
non-increasing, with `dateAsc` its dates are non-decreasing (hypotheses:
the amounts are finite, resp. the dates parse, so that the comparator is
consistent), and the sort is stable: for every key value, the records
carrying that sort key appear in the output in exactly the order in
which they left the filter stages (this part holds unconditionally). -/
theorem sort_c8 (expenses : List Expense) (spec : QuerySpec) :
    (spec.sortBy = "amountDesc" →
      (∀ e ∈ expenses, e.amount.isFinite = true) →
      (getProcessedExpenses expenses spec).Pairwise
        (fun a b => JsNum.le b.amount a.amount = true)) ∧
    (spec.sortBy = "dateAsc" →
      (∀ e ∈ expenses, (jsDateVal e.date).isFinite = true) →
      (getProcessedExpenses expenses spec).Pairwise
        (fun a b =>
          JsNum.le (jsDateVal a.date) (jsDateVal b.date) = true)) ∧
    (spec.sortBy = "amountDesc" → ∀ v : JsNum,
      (getProcessedExpenses expenses spec).filter (fun e => e.amount == v) =
        (filterStages expenses spec).filter (fun e => e.amount == v)) ∧
    (spec.sortBy = "dateAsc" → ∀ v : JsNum,
      (getProcessedExpenses expenses spec).filter
          (fun e => jsDateVal e.date == v) =
        (filterStages expenses spec).filter
          (fun e => jsDateVal e.date == v)) := by
  refine ⟨?_, ?_, ?_, ?_⟩
  · intro hk hfin
    rw [getProcessedExpenses_decomp, hk]
    have hfin' : ∀ e ∈ filterStages expenses spec,
        ∃ q, e.amount = JsNum.num q := fun e he =>
      (isFinite_iff _).mp (hfin e (mem_filterStages e expenses spec he))
    have hpw := stableSort_pairwise (cmpKeeps (sortComparator "amountDesc"))
      (filterStages expenses spec) ?_ ?_
    · refine hpw.imp_of_mem ?_
      intro a b ha hb hab
      obtain ⟨qa, hqa⟩ := hfin' a
        ((mem_stableSort _ _ _).mp (by exact ha))
      obtain ⟨qb, hqb⟩ := hfin' b
        ((mem_stableSort _ _ _).mp (by exact hb))
      rw [show cmpKeeps (sortComparator "amountDesc") a b =
          !(JsNum.lt (JsNum.num 0) (JsNum.sub b.amount a.amount)) from rfl,
        hqa, hqb, amtCmp_rel] at hab
      rw [hqa, hqb, le_num_num]
      exact hab
    · intro a ha b hb
      obtain ⟨qa, hqa⟩ := hfin' a ha
      obtain ⟨qb, hqb⟩ := hfin' b hb
      rw [show cmpKeeps (sortComparator "amountDesc") a b =
          !(JsNum.lt (JsNum.num 0) (JsNum.sub b.amount a.amount)) from rfl,
        show cmpKeeps (sortComparator "amountDesc") b a =
          !(JsNum.lt (JsNum.num 0) (JsNum.sub a.amount b.amount)) from rfl,
        hqa, hqb, amtCmp_rel, amtCmp_rel]
      rcases le_total qb qa with h | h
      · exact Or.inl (decide_eq_true h)
      · exact Or.inr (decide_eq_true h)
    · intro a ha b hb c hc h1 h2
      obtain ⟨qa, hqa⟩ := hfin' a ha
      obtain ⟨qb, hqb⟩ := hfin' b hb
      obtain ⟨qc, hqc⟩ := hfin' c hc
      rw [show cmpKeeps (sortComparator "amountDesc") a b =
          !(JsNum.lt (JsNum.num 0) (JsNum.sub b.amount a.amount)) from rfl,
        hqa, hqb, amtCmp_rel] at h1
      rw [show cmpKeeps (sortComparator "amountDesc") b c =
          !(JsNum.lt (JsNum.num 0) (JsNum.sub c.amount b.amount)) from rfl,
        hqb, hqc, amtCmp_rel] at h2
      rw [show cmpKeeps (sortComparator "amountDesc") a c =
          !(JsNum.lt (JsNum.num 0) (JsNum.sub c.amount a.amount)) from rfl,
        hqa, hqc, amtCmp_rel]
      exact decide_eq_true
        (le_trans (of_decide_eq_true h2) (of_decide_eq_true h1))
  · intro hk hfin
    rw [getProcessedExpenses_decomp, hk]
    have hfin' : ∀ e ∈ filterStages expenses spec,
        ∃ q, jsDateVal e.date = JsNum.num q := fun e he =>
      (isFinite_iff _).mp (hfin e (mem_filterStages e expenses spec he))
    have hpw := stableSort_pairwise (cmpKeeps (sortComparator "dateAsc"))
      (filterStages expenses spec) ?_ ?_
    · refine hpw.imp_of_mem ?_
      intro a b ha hb hab
      obtain ⟨qa, hqa⟩ := hfin' a
        ((mem_stableSort _ _ _).mp (by exact ha))
      obtain ⟨qb, hqb⟩ := hfin' b
        ((mem_stableSort _ _ _).mp (by exact hb))
      rw [show cmpKeeps (sortComparator "dateAsc") a b =
          !(JsNum.lt (JsNum.num 0)
            (JsNum.sub (jsDateVal a.date) (jsDateVal b.date))) from rfl,
        hqa, hqb, amtCmp_rel] at hab
      rw [hqa, hqb, le_num_num]
      exact hab
    · intro a ha b hb
      obtain ⟨qa, hqa⟩ := hfin' a ha
      obtain ⟨qb, hqb⟩ := hfin' b hb
      rw [show cmpKeeps (sortComparator "dateAsc") a b =
          !(JsNum.lt (JsNum.num 0)
            (JsNum.sub (jsDateVal a.date) (jsDateVal b.date))) from rfl,
        show cmpKeeps (sortComparator "dateAsc") b a =
          !(JsNum.lt (JsNum.num 0)
            (JsNum.sub (jsDateVal b.date) (jsDateVal a.date))) from rfl,
        hqa, hqb, amtCmp_rel, amtCmp_rel]
      rcases le_total qa qb with h | h
      · exact Or.inl (decide_eq_true h)
      · exact Or.inr (decide_eq_true h)
    · intro a ha b hb c hc h1 h2
      obtain ⟨qa, hqa⟩ := hfin' a ha
      obtain ⟨qb, hqb⟩ := hfin' b hb
      obtain ⟨qc, hqc⟩ := hfin' c hc
      rw [show cmpKeeps (sortComparator "dateAsc") a b =
          !(JsNum.lt (JsNum.num 0)
            (JsNum.sub (jsDateVal a.date) (jsDateVal b.date))) from rfl,
        hqa, hqb, amtCmp_rel] at h1
      rw [show cmpKeeps (sortComparator "dateAsc") b c =
          !(JsNum.lt (JsNum.num 0)
            (JsNum.sub (jsDateVal b.date) (jsDateVal c.date))) from rfl,
        hqb, hqc, amtCmp_rel] at h2
      rw [show cmpKeeps (sortComparator "dateAsc") a c =
          !(JsNum.lt (JsNum.num 0)
            (JsNum.sub (jsDateVal a.date) (jsDateVal c.date))) from rfl,
        hqa, hqc, amtCmp_rel]
      exact decide_eq_true
        (le_trans (of_decide_eq_true h1) (of_decide_eq_true h2))
  · intro hk v
    rw [getProcessedExpenses_decomp, hk]
    have hform : cmpKeeps (sortComparator "amountDesc") =
        fun a b =>
          (fun k k2 => !(JsNum.lt (JsNum.num 0) (JsNum.sub k2 k)))
            ((fun e => e.amount) a) ((fun e => e.amount) b) := rfl
    rw [hform]
    exact stableSort_filter_key
      (fun k k2 => !(JsNum.lt (JsNum.num 0) (JsNum.sub k2 k)))
      (fun e => e.amount) subSelf_not_pos v (filterStages expenses spec)
  · intro hk v
    rw [getProcessedExpenses_decomp, hk]
    have hform : cmpKeeps (sortComparator "dateAsc") =
        fun a b =>
          (fun k k2 => !(JsNum.lt (JsNum.num 0) (JsNum.sub k k2)))
            ((fun e => jsDateVal e.date) a)
            ((fun e => jsDateVal e.date) b) := rfl
    rw [hform]
    exact stableSort_filter_key
      (fun k k2 => !(JsNum.lt (JsNum.num 0) (JsNum.sub k k2)))
      (fun e => jsDateVal e.date)
      (fun k => subSelf_not_pos k) v (filterStages expenses spec)

theorem sort_c8_witness :
    (getProcessedExpenses
        [{ id := "a", amount := JsNum.num 3, category := "Food",
           date := "2024-01-05", description := "x", createdAt := "t" },
         { id := "b", amount := JsNum.num 7, category := "Gas",
           date := "2024-02-06", description := "y", createdAt := "t" }]
        { searchText := "", filterMonth := "", filterCategory := "",
          sortBy := "amountDesc" }).Pairwise
      (fun a b => JsNum.le b.amount a.amount = true) :=
  (sort_c8
    [{ id := "a", amount := JsNum.num 3, category := "Food",
       date := "2024-01-05", description := "x", createdAt := "t" },
     { id := "b", amount := JsNum.num 7, category := "Gas",
       date := "2024-02-06", description := "y", createdAt := "t" }]
    { searchText := "", filterMonth := "", filterCategory := "",
      sortBy := "amountDesc" }).1 rfl (by decide)

end ExpenseTracker
